import Mathlib

/-!
Verification development for the go-augeas binding (package `augeas`).

The repository under verification is a cgo wrapper around the native Augeas
configuration-editing library.  The wrapper's own logic (argument marshalling,
return-code dispatch, error translation) is embedded here directly from
`augeas.go` and `error.go`.  The native library itself is not part of the
repository, so its tree store and path-expression engine are modelled from the
specification document; every such definition carries a doc comment starting
with `Modelled from the spec:`.
-/

set_option maxHeartbeats 1000000

namespace augeas

/-- Modelled from the spec: a node of the Augeas configuration tree — a label,
an optional value and an ordered list of children.  Sibling order is
significant; labels may repeat among siblings. -/
inductive Tree where
  | node : String → Option String → List Tree → Tree
deriving Repr

/-- The label of a tree node. -/
def Tree.label : Tree → String
  | .node l _ _ => l

/-- The optional value of a tree node. -/
def Tree.value : Tree → Option String
  | .node _ v _ => v

/-- The ordered children of a tree node. -/
def Tree.children : Tree → List Tree
  | .node _ _ cs => cs

/-- Number of nodes in a forest (each node counts itself and its descendants). -/
def sizeForest : List Tree → Nat
  | [] => 0
  | .node _ _ cs :: ts => 1 + sizeForest cs + sizeForest ts

/-- Number of nodes in a tree: the node itself plus all its descendants. -/
def size : Tree → Nat
  | .node _ _ cs => 1 + sizeForest cs

/-- Modelled from the spec: a bracketed selector of a path segment — a 1-based
positional index among same-labeled siblings, or `last()`. -/
inductive Selector where
  | nth : Nat → Selector
  | last : Selector
  | all : Selector
deriving DecidableEq, Repr

/-- Modelled from the spec: one segment of a path expression — either `*`
(matches any child) or a literal label with an optional selector. -/
inductive Segment where
  | any : Segment
  | label : String → Selector → Segment
deriving DecidableEq, Repr

/-- Split a character list on a separator character. -/
def splitOnChar (c : Char) : List Char → List (List Char)
  | [] => [[]]
  | x :: xs =>
    let r := splitOnChar c xs
    if x = c then [] :: r
    else
      match r with
      | [] => [[x]]
      | g :: gs => (x :: g) :: gs

/-- Interpret a list of decimal digits as a natural number. -/
def digitsToNat (l : List Char) : Nat :=
  l.foldl (fun a c => a * 10 + (c.toNat - 48)) 0

/-- Modelled from the spec: parse the contents of a bracketed selector —
`last()` or a non-empty run of digits (1-based index). -/
def parseSelector (inner : List Char) : Option Selector :=
  if inner = "last()".toList then some Selector.last
  else if inner ≠ [] ∧ inner.all Char.isDigit then some (Selector.nth (digitsToNat inner))
  else none

/-- Modelled from the spec: parse one path segment — `*`, a literal label, or a
literal label followed by a bracketed selector.  Anything else is malformed. -/
def parseSegment (g : List Char) : Option Segment :=
  if g = ['*'] then some Segment.any
  else
    match splitOnChar '[' g with
    | [w] =>
      if w = [] ∨ w.contains ']' ∨ w.contains '*' then none
      else some (Segment.label (String.mk w) Selector.all)
    | [w, b] =>
      if b ≠ [] ∧ b.getLast? = some ']' then
        let inner := b.dropLast
        if w = [] ∨ w.contains ']' ∨ w.contains '*' ∨ inner.contains ']' then none
        else (parseSelector inner).map (Segment.label (String.mk w))
      else none
    | _ => none

/-- Parse a '/'-separated list of segments; fails if any segment is malformed. -/
def parseSegs : List (List Char) → Option (List Segment)
  | [] => some []
  | g :: gs =>
    match parseSegment g, parseSegs gs with
    | some s, some r => some (s :: r)
    | _, _ => none

/-- Modelled from the spec: parse an absolute path expression — a leading '/'
followed by a non-empty '/'-separated sequence of segments. -/
def parsePath (p : String) : Option (List Segment) :=
  match p.toList with
  | '/' :: rest => if rest = [] then none else parseSegs (splitOnChar '/' rest)
  | _ => none

/-- Modelled from the spec: parse a relative path expression — a non-empty
'/'-separated sequence of segments with no leading '/'. -/
def parseRelPath (p : String) : Option (List Segment) :=
  match p.toList with
  | [] => none
  | '/' :: _ => none
  | l => parseSegs (splitOnChar '/' l)

/-- Count how often a per-label counter has been bumped. -/
def countOf (acc : List (String × Nat)) (l : String) : Nat :=
  match acc.find? (fun q => q.1 == l) with
  | some q => q.2
  | none => 0

/-- Annotate each tree of a forest with its 1-based occurrence index among
same-labeled earlier siblings, continuing from the counters in `acc`. -/
def annotate (acc : List (String × Nat)) : List Tree → List (Tree × Nat)
  | [] => []
  | t :: ts =>
    let n := countOf acc t.label + 1
    (t, n) :: annotate ((t.label, n) :: acc) ts

/-- Total number of siblings carrying a given label. -/
def countLabel (cs : List Tree) (l : String) : Nat :=
  (cs.filter (fun t => t.label == l)).length

/-- Modelled from the spec: whether a segment selects the sibling `t`, which is
the `n`-th same-labeled node of the sibling list `cs`. -/
def selects (cs : List Tree) (seg : Segment) (t : Tree) (n : Nat) : Bool :=
  match seg with
  | .any => true
  | .label l sel =>
    t.label == l &&
      match sel with
      | .all => true
      | .nth k => n == k
      | .last => n == countLabel cs l

/-- Modelled from the spec: evaluate a path expression against a forest,
returning each matched node together with its concrete address — the list of
(label, same-label index) steps from the root.  Matching is deterministic and
preserves sibling order. -/
def matchForest : List Segment → List Tree → List (List (String × Nat) × Tree)
  | [], _ => []
  | [seg], cs =>
    (annotate [] cs).foldr
      (fun p acc =>
        if selects cs seg p.1 p.2 then ([(p.1.label, p.2)], p.1) :: acc else acc) []
  | seg :: r1 :: rs, cs =>
    (annotate [] cs).foldr
      (fun p acc =>
        if selects cs seg p.1 p.2 then
          ((matchForest (r1 :: rs) p.1.children).map
            (fun q => ((p.1.label, p.2) :: q.1, q.2))) ++ acc
        else acc) []

/-- Sum of the sizes of the subtrees returned by `matchForest`: the number of
nodes that a removal of all matches (with their descendants) touches. -/
def sumSizes (l : List (List (String × Nat) × Tree)) : Nat :=
  (l.map (fun q => size q.2)).sum

/-- Modelled from the spec: delete every node of the forest matched by the
path expression, together with all its descendants; returns the new forest and
the number of nodes removed.  The match set is computed against the forest as
it was before the removal. -/
def removeChildren : List Segment → List Tree → List Tree × Nat
  | [], cs => (cs, 0)
  | [seg], cs =>
    (annotate [] cs).foldr
      (fun p acc =>
        if selects cs seg p.1 p.2 then (acc.1, size p.1 + acc.2)
        else (p.1 :: acc.1, acc.2)) ([], 0)
  | seg :: r1 :: rs, cs =>
    (annotate [] cs).foldr
      (fun p acc =>
        if selects cs seg p.1 p.2 then
          (Tree.node p.1.label p.1.value (removeChildren (r1 :: rs) p.1.children).1 :: acc.1,
           (removeChildren (r1 :: rs) p.1.children).2 + acc.2)
        else (p.1 :: acc.1, acc.2)) ([], 0)
termination_by structural segs _ => segs

/-- Modelled from the spec: apply an editing function to every node of the
forest matched by the path expression; returns the new forest and the sum of
the counts reported by the edits. -/
def editForest (f : Tree → Tree × Nat) : List Segment → List Tree → List Tree × Nat
  | [], cs => (cs, 0)
  | [seg], cs =>
    (annotate [] cs).foldr
      (fun p acc =>
        if selects cs seg p.1 p.2 then ((f p.1).1 :: acc.1, (f p.1).2 + acc.2)
        else (p.1 :: acc.1, acc.2)) ([], 0)
  | seg :: r1 :: rs, cs =>
    (annotate [] cs).foldr
      (fun p acc =>
        if selects cs seg p.1 p.2 then
          (Tree.node p.1.label p.1.value (editForest f (r1 :: rs) p.1.children).1 :: acc.1,
           (editForest f (r1 :: rs) p.1.children).2 + acc.2)
        else (p.1 :: acc.1, acc.2)) ([], 0)
termination_by structural segs _ => segs

/-- Render a concrete node address as a fully qualified path string. -/
def renderPath (l : List (String × Nat)) : String :=
  String.join (l.map (fun q => "/" ++ q.1 ++ "[" ++ toString q.2 ++ "]"))

/-!  Error codes, from `error.go`.  Negative codes are specific to the binding,
positive codes come from the native library (`iota` starting at `NoError = 0`). -/

def CouldNotInitialize : Int := -2

def NoMatch : Int := -1

def NoError : Int := 0

def ENOMEM : Int := 1

def EINTERNAL : Int := 2

def EPATHX : Int := 3

def ENOMATCH : Int := 4

def EMMATCH : Int := 5

def ESYNTAX : Int := 6

def ENOLENS : Int := 7

def EMXFM : Int := 8

def ENOSPAN : Int := 9

def EMVDESC : Int := 10

def ECMDRUN : Int := 11

def EBADARG : Int := 12

/-- Embedding of the `Error` struct of `error.go`. -/
structure Error where
  Code : Int
  Message : String
  MinorMessage : String
  Details : String
deriving DecidableEq, Repr

/-- The native per-session last-error state, as read by `aug_error`,
`aug_error_message`, `aug_error_minor_message` and `aug_error_details`. -/
structure ErrState where
  code : Int
  message : String
  minorMessage : String
  details : String
deriving DecidableEq, Repr

/-- Last-error state when the previous operation succeeded. -/
def noErrState : ErrState := ⟨NoError, "", "", ""⟩

/-- Modelled from the spec: last-error state after an invalid path expression. -/
def epathxState : ErrState := ⟨EPATHX, "Invalid path expression", "", ""⟩

/-- Modelled from the spec: last-error state after too many matches for a path
expression. -/
def emmatchState : ErrState := ⟨EMMATCH, "Too many matches for path expression", "", ""⟩

/-- Modelled from the spec: the state owned by a native Augeas handle — the
configuration tree (the children of the unlabeled root), the session's path
variables, and the last-error state. -/
structure Session where
  tree : List Tree
  vars : List (String × String)
  err : ErrState
deriving Repr

/-- Embedding of the `error()` method of `error.go`: reads the native
last-error state; nil when the code is `NoError`, otherwise an `Error`
carrying code, message, minor message and details. -/
def Session.error (s : Session) : Option Error :=
  if s.err.code = NoError then none
  else some ⟨s.err.code, s.err.message, s.err.minorMessage, s.err.details⟩

/-!  The `Flag` constants of `augeas.go`: `None Flag = 1 << iota` followed by
nine more constants, each doubling the previous one. -/

def None : Nat := 1 <<< 0

def SaveBackup : Nat := 1 <<< 1

def SaveNewFile : Nat := 1 <<< 2

def TypeCheck : Nat := 1 <<< 3

def NoStdinc : Nat := 1 <<< 4

def SaveNoop : Nat := 1 <<< 5

def NoLoad : Nat := 1 <<< 6

def NoModlAutoload : Nat := 1 <<< 7

def EnableSpan : Nat := 1 <<< 8

def NoErrClose : Nat := 1 <<< 9

/-- The Go-to-C conversion `C.uint(flags)` performed in `New`: truncation to
32 bits. -/
def cuint (n : Nat) : Nat := n % 2 ^ 32

/-!  Spec-modelled native operations.  The native library is not part of the
repository; each operation below is modelled from the specification document. -/

/-- Modelled from the spec: `aug_get` — the path must resolve to exactly one
node.  Returns 1 and the node's value on a unique match, 0 on no match, and a
negative return with the last-error state set on a malformed expression
(`EPATHX`) or on multiple matches (`EMMATCH`). -/
def aug_get (s : Session) (p : String) : Int × String × Session :=
  match parsePath p with
  | none => (-1, "", ⟨s.tree, s.vars, epathxState⟩)
  | some segs =>
    match matchForest segs s.tree with
    | [] => (0, "", ⟨s.tree, s.vars, noErrState⟩)
    | [q] => (1, q.2.value.getD "", ⟨s.tree, s.vars, noErrState⟩)
    | _ => (-1, "", ⟨s.tree, s.vars, emmatchState⟩)

/-- Modelled from the spec: `aug_label` — same return convention as `aug_get`,
yielding the label of the uniquely matched node. -/
def aug_label (s : Session) (p : String) : Int × String × Session :=
  match parsePath p with
  | none => (-1, "", ⟨s.tree, s.vars, epathxState⟩)
  | some segs =>
    match matchForest segs s.tree with
    | [] => (0, "", ⟨s.tree, s.vars, noErrState⟩)
    | [q] => (1, q.2.label, ⟨s.tree, s.vars, noErrState⟩)
    | _ => (-1, "", ⟨s.tree, s.vars, emmatchState⟩)

/-- Modelled from the spec: `aug_rm` — deletes every node matching the path
together with all descendants and returns the number of nodes removed; −1 with
the last-error state set on a malformed expression. -/
def aug_rm (s : Session) (p : String) : Int × Session :=
  match parsePath p with
  | none => (-1, ⟨s.tree, s.vars, epathxState⟩)
  | some segs =>
    (Int.ofNat (removeChildren segs s.tree).2,
     ⟨(removeChildren segs s.tree).1, s.vars, noErrState⟩)

/-- Modelled from the spec: `aug_match` — returns the number of matches and
the fully qualified path of each matched node, in tree order; −1 with the
last-error state set on a malformed expression. -/
def aug_match (s : Session) (p : String) : Int × List String × Session :=
  match parsePath p with
  | none => (-1, [], ⟨s.tree, s.vars, epathxState⟩)
  | some segs =>
    (Int.ofNat (matchForest segs s.tree).length,
     (matchForest segs s.tree).map (fun q => renderPath q.1),
     ⟨s.tree, s.vars, noErrState⟩)

/-- Modelled from the spec: `aug_defvar` — a null expression removes the
variable and returns 0; otherwise the expression is parsed (−1 with `EPATHX`
when malformed) and the variable is bound, returning the number of nodes in
the expression's node-set. -/
def aug_defvar (s : Session) (name : String) (expr : Option String) : Int × Session :=
  match expr with
  | none => (0, ⟨s.tree, s.vars.filter (fun q => !(q.1 == name)), noErrState⟩)
  | some e =>
    match parsePath e with
    | none => (-1, ⟨s.tree, s.vars, epathxState⟩)
    | some segs =>
      (Int.ofNat (matchForest segs s.tree).length,
       ⟨s.tree, (name, e) :: s.vars.filter (fun q => !(q.1 == name)), noErrState⟩)

/-- A relative path expression made only of plain labels, the creatable case
of `aug_setm`. -/
def allPlainLabels : List Segment → Option (List String)
  | [] => some []
  | Segment.label l Selector.all :: rest => (allPlainLabels rest).map (l :: ·)
  | _ => none

/-- Create a chain of nodes for the given labels, the value sitting on the
last one. -/
def createChain (l : String) (ls : List String) (v : String) : Tree :=
  match ls with
  | [] => Tree.node l (some v) []
  | l2 :: rest => Tree.node l none [createChain l2 rest v]

/-- Modelled from the spec: the per-base-node action of `aug_setm` — assign
the value to every node matching `sub` below the base node, or create the
chain of plain labels when nothing matches and the relative expression is
creatable.  Returns the new base node and the number of nodes modified. -/
def setmAtBase (subsegs : List Segment) (v : String) (t : Tree) : Tree × Nat :=
  match matchForest subsegs t.children with
  | [] =>
    match allPlainLabels subsegs with
    | some (l :: ls) => (Tree.node t.label t.value (t.children ++ [createChain l ls v]), 1)
    | _ => (t, 0)
  | _ =>
    match editForest (fun u => (Tree.node u.label (some v) u.children, 1)) subsegs t.children with
    | (cs, k) => (Tree.node t.label t.value cs, k)

/-- Modelled from the spec: `aug_setm(base, sub, value)` — for every node
matching `base`, find or create the nodes addressed by `sub` relative to it
and assign `value`; a null `sub` means the base nodes themselves.  Returns the
number of modified nodes, or −1 with the last-error state set on a malformed
expression. -/
def aug_setm (s : Session) (base : String) (sub : Option String) (v : String) : Int × Session :=
  match parsePath base with
  | none => (-1, ⟨s.tree, s.vars, epathxState⟩)
  | some bsegs =>
    match sub with
    | none =>
      match editForest (fun u => (Tree.node u.label (some v) u.children, 1)) bsegs s.tree with
      | (cs, k) => (Int.ofNat k, ⟨cs, s.vars, noErrState⟩)
    | some subExpr =>
      match parseRelPath subExpr with
      | none => (-1, ⟨s.tree, s.vars, epathxState⟩)
      | some subsegs =>
        match editForest (setmAtBase subsegs v) bsegs s.tree with
        | (cs, k) => (Int.ofNat k, ⟨cs, s.vars, noErrState⟩)

/-- Modelled from the spec: one file presented to `aug_load` — its path,
whether its lens parses it, and the tree fragment it parses to. -/
structure LoadFile where
  path : String
  parses : Bool
  content : List Tree
deriving Repr

/-- Modelled from the spec: the per-file parse-error node recorded under the
reserved `/augeas` namespace for a file whose lens fails. -/
def errorEntry : Tree := Tree.node "error" (some "parse failed") []

/-- Modelled from the spec: the tree after a successful `aug_load` — the
reserved `/augeas` namespace holds one node per file, with an error child when
the file failed to parse, and `/files` holds the parsed content of the files
that did parse. -/
def loadedTree (files : List LoadFile) : List Tree :=
  [Tree.node "augeas" none
    (files.map (fun f => Tree.node f.path none (if f.parses then [] else [errorEntry]))),
   Tree.node "files" none
    (files.filterMap (fun f => if f.parses then some (Tree.node f.path none f.content) else none))]

/-- Modelled from the spec: `aug_load` — reloads the tree from the given
files.  Individual parse failures do not fail the load: the overall return is
0 and each failing file is recorded as an error node under `/augeas`; only a
failure of the load as a whole returns −1. -/
def aug_load (files : List LoadFile) (overallOk : Bool) (s : Session) : Int × Session :=
  if overallOk then (0, ⟨loadedTree files, s.vars, noErrState⟩)
  else (-1, ⟨s.tree, s.vars, ⟨ENOMEM, "Out of memory", "", ""⟩⟩)

/-!  Embeddings of the Go wrapper functions of `augeas.go`. -/

/-- The outcome of a Go call returning `(string, error)` that may also panic:
a normal return pairs the value with a Go error (nil or not), `panicked`
records a runtime panic. -/
inductive GetOutcome where
  | ret : String → Option Error → GetOutcome
  | panicked : String → GetOutcome
deriving DecidableEq, Repr

/-- Embedding of the return-code dispatch shared by `Get` and `Label` in
`augeas.go`: 1 yields the value with a nil error, 0 yields the binding-level
`NoMatch` error, a negative value yields the session's last-error, and any
other value reaches `panic("Unexpected return value")`. -/
def valueRetDispatch (ret : Int) (cValue : String) (sessionError : Option Error) : GetOutcome :=
  if ret = 1 then GetOutcome.ret cValue none
  else if ret = 0 then GetOutcome.ret "" (some ⟨NoMatch, "No matching node", "", ""⟩)
  else if ret < 0 then GetOutcome.ret "" sessionError
  else GetOutcome.panicked "Unexpected return value"

/-- Embedding of `(a Augeas) Get(path)` from `augeas.go`, over the
spec-modelled native `aug_get`. -/
def Get (s : Session) (p : String) : GetOutcome × Session :=
  match aug_get s p with
  | (ret, cValue, s2) => (valueRetDispatch ret cValue (Session.error s2), s2)

/-- Embedding of `(a Augeas) Label(path)` from `augeas.go`, over the
spec-modelled native `aug_label`. -/
def Label (s : Session) (p : String) : GetOutcome × Session :=
  match aug_label s p with
  | (ret, cValue, s2) => (valueRetDispatch ret cValue (Session.error s2), s2)

/-- Embedding of `(a Augeas) Match(path)` from `augeas.go`: a negative native
return yields `(nil, a.error())`, otherwise the marshalled list of matches
with a nil error. -/
def Match (s : Session) (p : String) : (List String × Option Error) × Session :=
  match aug_match s p with
  | (num, ms, s2) => if num < 0 then (([], Session.error s2), s2) else ((ms, none), s2)

/-- The outcome of `GetAll`: a normal return of the values with a Go error,
or a propagated panic. -/
inductive GetAllOutcome where
  | ret : List String → Option Error → GetAllOutcome
  | panicked : String → GetAllOutcome
deriving DecidableEq, Repr

/-- The loop of `GetAll` in `augeas.go`: `Get` each matched path in order,
appending values; on the first per-node failure return the values collected
so far together with that failure. -/
def getAllLoop : Session → List String → List String → GetAllOutcome × Session
  | s, [], values => (GetAllOutcome.ret values none, s)
  | s, p :: rest, values =>
    match Get s p with
    | (GetOutcome.ret v none, s2) => getAllLoop s2 rest (values ++ [v])
    | (GetOutcome.ret _ (some e), s2) => (GetAllOutcome.ret values (some e), s2)
    | (GetOutcome.panicked m, s2) => (GetAllOutcome.panicked m, s2)

/-- Embedding of `(a Augeas) GetAll(path)` from `augeas.go`: `Match` first —
returning its error with no values when it fails — then the `Get` loop. -/
def GetAll (s : Session) (p : String) : GetAllOutcome × Session :=
  match Match s p with
  | ((paths, err), s2) =>
    match err with
    | some e => (GetAllOutcome.ret [] (some e), s2)
    | none => getAllLoop s2 paths []

/-- Embedding of `(a Augeas) Remove(path)` from `augeas.go`: returns
`int(C.aug_rm(...))` directly — the signature carries no error value. -/
def Remove (s : Session) (p : String) : Int × Session :=
  match aug_rm s p with
  | (num, s2) => (num, s2)

/-- The marshalling of the `expression` argument of `DefineVariable`: the Go
code only allocates a C string when the expression is non-empty, so an empty
expression reaches the native call as nil. -/
def cExpressionOf (expression : String) : Option String :=
  if expression ≠ "" then some expression else none

/-- Embedding of `(a Augeas) DefineVariable(name, expression)` from
`augeas.go`. -/
def DefineVariable (s : Session) (name expression : String) : (Int × Option Error) × Session :=
  match aug_defvar s name (cExpressionOf expression) with
  | (ret, s2) => if ret = -1 then ((0, Session.error s2), s2) else ((ret, none), s2)

/-- Embedding of `(a Augeas) RemoveVariable(name)` from `augeas.go`: calls
`DefineVariable` with an empty expression and discards the count. -/
def RemoveVariable (s : Session) (name : String) : Option Error × Session :=
  match DefineVariable s name "" with
  | ((_, err), s2) => (err, s2)

/-- Embedding of `(a Augeas) SetMultiple(base, sub, value)` from `augeas.go`.
The Go source declares `var cSub *C.char` (nil) and, inside `if sub != ""`,
writes `cSub := C.CString(sub)` — a short variable declaration that creates a
new, shadowing local.  The outer `cSub` handed to `aug_setm` therefore stays
nil for every input; `outerCSub` records it, and `_innerCSub` is the shadowing
local, never read again after its `defer C.free`. -/
def SetMultiple (s : Session) (base sub value : String) : (Int × Option Error) × Session :=
  let outerCSub : Option String := none
  let _innerCSub : Option String := if sub ≠ "" then some sub else none
  match aug_setm s base outerCSub value with
  | (ret, s2) => if ret = -1 then ((0, Session.error s2), s2) else ((ret, none), s2)

/-- `SetMultiple` as the specification and the function's own doc comment
describe it: the `sub` expression is passed to the native call whenever it is
non-empty. -/
def specSetMultiple (s : Session) (base sub value : String) : (Int × Option Error) × Session :=
  let cSub : Option String := if sub ≠ "" then some sub else none
  match aug_setm s base cSub value with
  | (ret, s2) => if ret = -1 then ((0, Session.error s2), s2) else ((ret, none), s2)

/-- Embedding of `(a Augeas) Load()` from `augeas.go`, over the spec-modelled
`aug_load`: only a native return of −1 is translated into an error. -/
def Load (files : List LoadFile) (overallOk : Bool) (s : Session) : Option Error × Session :=
  match aug_load files overallOk s with
  | (ret, s2) => if ret = -1 then (Session.error s2, s2) else (none, s2)

/-- The Go value `Augeas{handle}.error()` computed by `New` on the NoErrClose
path.  Reading the last-error of a NULL handle is undefined behaviour in C; it
is modelled as no error here, and no theorem relies on that corner. -/
def goHandleError (handle : Option Session) : Option Error :=
  match handle with
  | some h => Session.error h
  | none => none

/-- Embedding of `New(root, loadPath, flags)` from `augeas.go`, parameterized
by the native initializer (`aug_init` belongs to the native library).  A `none`
handle is a NULL `*C.augeas`.  With `NoErrClose` set, the handle — whatever it
is — is returned together with the session's last-error; otherwise a NULL
handle becomes an empty `Augeas` and the fixed `CouldNotInitialize` error. -/
def New (aug_init : Nat → Option Session) (flags : Nat) : Option Session × Option Error :=
  let handle := aug_init (cuint flags)
  if flags &&& NoErrClose > 0 then (handle, goHandleError handle)
  else
    match handle with
    | none => (none, some ⟨CouldNotInitialize, "Could not initialize Augeas tree", "", ""⟩)
    | some h => (some h, none)

/-- One of the wrapper calls that only query the tree. -/
inductive QueryOp where
  | getOp : String → QueryOp
  | labelOp : String → QueryOp
  | matchOp : String → QueryOp
  | getAllOp : String → QueryOp
deriving Repr

/-- Run a query operation for its session effect, discarding the result. -/
def applyQuery (s : Session) : QueryOp → Session
  | .getOp p => (Get s p).2
  | .labelOp p => (Label s p).2
  | .matchOp p => (Match s p).2
  | .getAllOp p => (GetAll s p).2

/-- Run a sequence of query operations. -/
def applyQueries (ops : List QueryOp) (s : Session) : Session :=
  ops.foldl applyQuery s

/-!  Definitions supporting the claim statements. -/

/-- The specification's description of the per-path loop of `getAll`: get each
matched path in order, stopping at the first per-node failure and reporting it
together with the values collected so far. -/
def specGetEach : Session → List String → GetAllOutcome × Session
  | s, [] => (GetAllOutcome.ret [] none, s)
  | s, p :: rest =>
    match Get s p with
    | (GetOutcome.ret v none, s2) =>
      match specGetEach s2 rest with
      | (GetAllOutcome.ret vs e, s3) => (GetAllOutcome.ret (v :: vs) e, s3)
      | (GetAllOutcome.panicked m, s3) => (GetAllOutcome.panicked m, s3)
    | (GetOutcome.ret _ (some e), s2) => (GetAllOutcome.ret [] (some e), s2)
    | (GetOutcome.panicked m, s2) => (GetAllOutcome.panicked m, s2)

/-- The specification's `getAll`: `match`, then get each returned concrete
path in order; a failure of `match` itself is returned with no values. -/
def specGetAll (s : Session) (p : String) : GetAllOutcome × Session :=
  match Match s p with
  | ((paths, err), s2) =>
    match err with
    | some e => (GetAllOutcome.ret [] (some e), s2)
    | none => specGetEach s2 paths

/-- All children of top-level nodes of a forest carrying a given label. -/
def underLabel (l : String) (cs : List Tree) : List Tree :=
  ((cs.filter (fun t => t.label == l)).map Tree.children).flatten

/-- A concrete session: two nodes labelled `a` and one labelled `b`, each with
a value. -/
def demoSession : Session :=
  ⟨[Tree.node "a" (some "x") [], Tree.node "a" (some "y") [], Tree.node "b" (some "z") []],
   [], noErrState⟩

/-- A concrete session for `SetMultiple`: one node `a` with a single child
`b`, neither carrying a value. -/
def setmInput : Session :=
  ⟨[Tree.node "a" none [Tree.node "b" none []]], [], noErrState⟩

/-- Two concrete files for `Load`: the first parses, the second does not. -/
def demoFiles : List LoadFile :=
  [⟨"/etc/hosts", true, [Tree.node "127.0.0.1" (some "localhost") []]⟩,
   ⟨"/etc/fstab", false, []⟩]

/-- A native initializer that always fails, returning a NULL handle. -/
def failInit : Nat → Option Session := fun _ => none

end augeas

namespace augeas

/-!  Helper lemmas. -/

/-- Filtering out a name leaves nothing for `find?` on that name to find. -/
theorem find_filter_self (name : String) (l : List (String × String)) :
    (l.filter (fun q => !(q.1 == name))).find? (fun q => q.1 == name) = none := by
  induction l with
  | nil => rfl
  | cons q l ih =>
    by_cases h : q.1 = name
    · simp [List.filter_cons, h, ih]
    · simp [List.filter_cons, h, List.find?, ih]

/-- The spec-modelled `aug_get` only ever returns 1, 0 or a negative value. -/
theorem aug_get_ret_cases (s : Session) (p : String) :
    (aug_get s p).1 = 1 ∨ (aug_get s p).1 = 0 ∨ (aug_get s p).1 < 0 := by
  unfold aug_get
  split
  · simp
  · split <;> simp

/-- The spec-modelled `aug_label` only ever returns 1, 0 or a negative value. -/
theorem aug_label_ret_cases (s : Session) (p : String) :
    (aug_label s p).1 = 1 ∨ (aug_label s p).1 = 0 ∨ (aug_label s p).1 < 0 := by
  unfold aug_label
  split
  · simp
  · split <;> simp

/-!  C2 — the `Flag` constants. -/

/-- C2 counterexample: the claim asserts `f|None != f` for every flag set `f`,
but taking `f = None` itself gives `None|None = None`, even though `None` is
indeed not the zero value. -/
theorem flagOrNone_counterexample :
    None ||| None = None ∧ None ≠ 0 := by decide

/-- C2 (amended): the ten `Flag` constants are consecutive powers of two
starting at `None = 1`; `None` is not the zero value, so every flag set `f`
that does not already contain the `None` bit satisfies `f|None ≠ f`; and `New`
passes `C.uint(flags)` to the native initializer, which for `None` is the
value 1 — lowest bit set, not a no-op zero. -/
theorem Flag_values :
    None = 1 ∧ SaveBackup = 2 ∧ SaveNewFile = 4 ∧ TypeCheck = 8 ∧ NoStdinc = 16 ∧
    SaveNoop = 32 ∧ NoLoad = 64 ∧ NoModlAutoload = 128 ∧ EnableSpan = 256 ∧
    NoErrClose = 512 ∧ None ≠ 0 ∧
    (∀ f : Nat, f &&& None = 0 → f ||| None ≠ f) ∧
    cuint None = 1 ∧ cuint None &&& 1 = 1 := by
  refine ⟨rfl, rfl, rfl, rfl, rfl, rfl, rfl, rfl, rfl, rfl, by decide, ?_, by decide, by decide⟩
  intro f hf hcon
  have hor : (f ||| 1).testBit 0 = true := by
    rw [Nat.testBit_or]
    have h1 : (1 : Nat).testBit 0 = true := by decide
    simp [h1]
  have hNone : (None : Nat) = 1 := rfl
  rw [hNone] at hf hcon
  rw [hcon] at hor
  have hand := congrArg (fun n => n.testBit 0) hf
  simp only [Nat.testBit_and, hor] at hand
  have h1 : (1 : Nat).testBit 0 = true := by decide
  rw [h1] at hand
  simp at hand

/-- Witness for C2's amended universal part at the concrete flag set
`SaveBackup = 2`, which does not contain the `None` bit. -/
theorem Flag_values_witness :
    (2 : Nat) &&& None = 0 ∧ (2 : Nat) ||| None ≠ 2 := by
  refine ⟨by decide, ?_⟩
  exact Flag_values.2.2.2.2.2.2.2.2.2.2.2.1 2 (by decide)

/-!  C5 — `New` and the `NoErrClose` flag. -/

/-- C5: with `NoErrClose` set, `New` returns the native handle — whatever it
is — paired with the session's last-error, leaving the session usable for
diagnostics; without it, a NULL native handle makes `New` return an empty
session together with the fixed `CouldNotInitialize` error, and a non-NULL
handle is returned with a nil error. -/
theorem New_spec (aug_init : Nat → Option Session) (flags : Nat) :
    (flags &&& NoErrClose > 0 →
      New aug_init flags =
        (aug_init (cuint flags), goHandleError (aug_init (cuint flags)))) ∧
    (flags &&& NoErrClose = 0 → aug_init (cuint flags) = none →
      New aug_init flags =
        (none, some ⟨CouldNotInitialize, "Could not initialize Augeas tree", "", ""⟩)) ∧
    (flags &&& NoErrClose = 0 → ∀ h, aug_init (cuint flags) = some h →
      New aug_init flags = (some h, none)) := by
  refine ⟨?_, ?_, ?_⟩
  · intro h
    simp [New, h]
  · intro h0 hnone
    simp [New, h0, hnone]
  · intro h0 h hsome
    simp [New, h0, hsome]

/-- Witness for C5: a failing initializer, once with `NoErrClose` (flags 512)
and once without (flags 0). -/
theorem New_spec_witness :
    New failInit NoErrClose = (none, goHandleError none) ∧
    New failInit 0 =
      (none, some ⟨CouldNotInitialize, "Could not initialize Augeas tree", "", ""⟩) := by
  constructor
  · exact (New_spec failInit NoErrClose).1 (by decide)
  · exact (New_spec failInit 0).2.1 (by decide) rfl

/-!  C7 — `RemoveVariable` as `DefineVariable` with an empty expression. -/

/-- C7: `RemoveVariable(name)` behaves exactly as `DefineVariable(name, "")`
with the count discarded; the empty expression is marshalled as a null native
expression; and afterwards the variable is no longer bound. -/
theorem RemoveVariable_spec (s : Session) (name : String) :
    RemoveVariable s name =
      ((DefineVariable s name "").1.2, (DefineVariable s name "").2) ∧
    cExpressionOf "" = none ∧
    (RemoveVariable s name).2.vars.find? (fun q => q.1 == name) = none := by
  refine ⟨rfl, rfl, ?_⟩
  show (s.vars.filter (fun q => !(q.1 == name))).find? (fun q => q.1 == name) = none
  exact find_filter_self name s.vars

/-!  C10 — the panic branch of `Get` and `Label` is unreachable. -/

/-- C10: for every return value the native get/label call can produce (1 for
exactly one match, 0 for no match, negative for errors) the shared dispatch of
`Get` and `Label` returns normally — the `panic("Unexpected return value")`
branch is unreachable — and over the spec-modelled native layer neither `Get`
nor `Label` ever panics. -/
theorem no_panic_dispatch (ret : Int) (v : String) (e : Option Error)
    (h : ret = 1 ∨ ret = 0 ∨ ret < 0) :
    (∀ m, valueRetDispatch ret v e ≠ GetOutcome.panicked m) ∧
    (∀ s p m, (Get s p).1 ≠ GetOutcome.panicked m ∧
      (Label s p).1 ≠ GetOutcome.panicked m) := by
  constructor
  · intro m
    rcases h with h | h | h
    · simp [valueRetDispatch, h]
    · simp [valueRetDispatch, h]
    · have h1 : ret ≠ 1 := by omega
      have h0 : ret ≠ 0 := by omega
      simp [valueRetDispatch, h1, h0, h]
  · intro s p m
    constructor
    · show valueRetDispatch (aug_get s p).1 (aug_get s p).2.1 (Session.error (aug_get s p).2.2) ≠ _
      rcases aug_get_ret_cases s p with h | h | h
      · simp [valueRetDispatch, h]
      · simp [valueRetDispatch, h]
      · have h1 : (aug_get s p).1 ≠ 1 := by omega
        have h0 : (aug_get s p).1 ≠ 0 := by omega
        simp [valueRetDispatch, h1, h0, h]
    · show valueRetDispatch (aug_label s p).1 (aug_label s p).2.1 (Session.error (aug_label s p).2.2) ≠ _
      rcases aug_label_ret_cases s p with h | h | h
      · simp [valueRetDispatch, h]
      · simp [valueRetDispatch, h]
      · have h1 : (aug_label s p).1 ≠ 1 := by omega
        have h0 : (aug_label s p).1 ≠ 0 := by omega
        simp [valueRetDispatch, h1, h0, h]

/-- Witness for C10 at the concrete native return −3 and a concrete session
and path. -/
theorem no_panic_witness :
    valueRetDispatch (-3) "" none ≠ GetOutcome.panicked "Unexpected return value" ∧
    (Get demoSession "/a").1 ≠ GetOutcome.panicked "Unexpected return value" := by
  constructor
  · exact (no_panic_dispatch (-3) "" none (by decide)).1 "Unexpected return value"
  · exact ((no_panic_dispatch (-3) "" none (by decide)).2
      demoSession "/a" "Unexpected return value").1

/-!  C1 — the `SetMultiple` shadowing bug. -/

/-- C1 (code bug): on a tree `/a/b`, `SetMultiple("/a", "b", "v")` as written
assigns `v` to `/a` itself and leaves `/a/b` untouched — the shadowed `cSub`
means the native call always receives a nil `sub` — whereas the behaviour the
claim and the function's own doc comment describe (`specSetMultiple`) assigns
`v` to `/a/b` and leaves `/a` untouched. -/
theorem SetMultiple_sub_ignored :
    (SetMultiple setmInput "/a" "b" "v").2.tree =
      [Tree.node "a" (some "v") [Tree.node "b" none []]] ∧
    (specSetMultiple setmInput "/a" "b" "v").2.tree =
      [Tree.node "a" none [Tree.node "b" (some "v") []]] ∧
    (SetMultiple setmInput "/a" "b" "v").2.tree ≠
      (specSetMultiple setmInput "/a" "b" "v").2.tree := by
  refine ⟨rfl, rfl, ?_⟩
  intro hcon
  rw [show (SetMultiple setmInput "/a" "b" "v").2.tree =
      [Tree.node "a" (some "v") [Tree.node "b" none []]] from rfl] at hcon
  rw [show (specSetMultiple setmInput "/a" "b" "v").2.tree =
      [Tree.node "a" none [Tree.node "b" (some "v") []]] from rfl] at hcon
  simp at hcon

end augeas

namespace augeas

/-!  C4 — `Get` return conventions. -/

/-- C4: `Get` returns the node's value with a nil error on a unique match;
the binding-level `NoMatch` error on zero matches; the session's last-error
with code `EPATHX` on a malformed path; and the session's last-error with code
`EMMATCH` on more than one match — the codes pairwise distinct, so a
zero-match result is distinguishable from a malformed path. -/
theorem Get_spec (s : Session) (p : String) :
    (∀ segs q, parsePath p = some segs → matchForest segs s.tree = [q] →
      (Get s p).1 = GetOutcome.ret (q.2.value.getD "") none) ∧
    (∀ segs, parsePath p = some segs → matchForest segs s.tree = [] →
      (Get s p).1 = GetOutcome.ret "" (some ⟨NoMatch, "No matching node", "", ""⟩)) ∧
    (parsePath p = none →
      (Get s p).1 = GetOutcome.ret "" (some ⟨EPATHX, "Invalid path expression", "", ""⟩)) ∧
    (∀ segs q1 q2 rest, parsePath p = some segs →
      matchForest segs s.tree = q1 :: q2 :: rest →
      (Get s p).1 = GetOutcome.ret ""
        (some ⟨EMMATCH, "Too many matches for path expression", "", ""⟩)) ∧
    NoMatch ≠ EPATHX ∧ NoMatch ≠ EMMATCH ∧ NoMatch ≠ NoError := by
  refine ⟨?_, ?_, ?_, ?_, by decide, by decide, by decide⟩
  · intro segs q hp hm
    simp [Get, aug_get, hp, hm, valueRetDispatch]
  · intro segs hp hm
    simp [Get, aug_get, hp, hm, valueRetDispatch, NoMatch]
  · intro hp
    simp [Get, aug_get, hp, valueRetDispatch, Session.error, epathxState, EPATHX, NoError]
  · intro segs q1 q2 rest hp hm
    simp [Get, aug_get, hp, hm, valueRetDispatch, Session.error, emmatchState, EMMATCH, NoError]

/-- Witness for C4 on `demoSession`: a unique match, a zero-match path, a
malformed path and a doubly-matching path. -/
theorem Get_spec_witness :
    (Get demoSession "/b").1 = GetOutcome.ret "z" none ∧
    (Get demoSession "/c").1 =
      GetOutcome.ret "" (some ⟨NoMatch, "No matching node", "", ""⟩) ∧
    (Get demoSession "/[").1 =
      GetOutcome.ret "" (some ⟨EPATHX, "Invalid path expression", "", ""⟩) ∧
    (Get demoSession "/a").1 =
      GetOutcome.ret "" (some ⟨EMMATCH, "Too many matches for path expression", "", ""⟩) := by
  refine ⟨?_, ?_, ?_, ?_⟩
  · exact (Get_spec demoSession "/b").1 [Segment.label "b" Selector.all]
      ([("b", 1)], Tree.node "b" (some "z") []) (by decide) rfl
  · exact (Get_spec demoSession "/c").2.1 [Segment.label "c" Selector.all] (by decide) rfl
  · exact (Get_spec demoSession "/[").2.2.1 (by decide)
  · exact (Get_spec demoSession "/a").2.2.2.1 [Segment.label "a" Selector.all]
      ([("a", 1)], Tree.node "a" (some "x") []) ([("a", 2)], Tree.node "a" (some "y") [])
      [] (by decide) rfl

/-!  C6 — `GetAll` is match-then-get-each. -/

/-- The `GetAll` loop is the spec's get-each loop with an accumulator: the
values collected before entering the loop are prepended to whatever the spec
loop produces. -/
theorem getAllLoop_eq_specGetEach (paths : List String) :
    ∀ s acc, getAllLoop s paths acc =
      match specGetEach s paths with
      | (GetAllOutcome.ret vs e, s2) => (GetAllOutcome.ret (acc ++ vs) e, s2)
      | (GetAllOutcome.panicked m, s2) => (GetAllOutcome.panicked m, s2) := by
  induction paths with
  | nil => intro s acc; simp [getAllLoop, specGetEach]
  | cons p rest ih =>
    intro s acc
    simp only [getAllLoop, specGetEach]
    rcases hg : Get s p with ⟨o, s2⟩
    cases o with
    | ret v e =>
      cases e with
      | none =>
        simp only [ih]
        rcases hs : specGetEach s2 rest with ⟨o3, s3⟩
        cases o3 <;> simp
      | some e => simp
    | panicked m => simp

/-- C6: `GetAll` is exactly the spec's description — `Match`, then `Get` each
returned concrete path in order, stopping at the first per-node failure and
returning it with the values collected so far; a failure of `Match` itself is
returned with no values. -/
theorem GetAll_eq_specGetAll (s : Session) (p : String) :
    GetAll s p = specGetAll s p := by
  unfold GetAll specGetAll
  rcases hm : Match s p with ⟨⟨paths, err⟩, s2⟩
  cases err with
  | some e => rfl
  | none =>
    simp only [getAllLoop_eq_specGetEach]
    rcases hs : specGetEach s2 paths with ⟨o3, s3⟩
    cases o3 <;> simp

end augeas

namespace augeas

/-!  C8 — `Match` is deterministic on an unchanged tree. -/

/-- The spec-modelled `aug_get` never changes the tree. -/
theorem aug_get_tree (s : Session) (p : String) : (aug_get s p).2.2.tree = s.tree := by
  unfold aug_get
  split
  · rfl
  · split <;> rfl

/-- The spec-modelled `aug_label` never changes the tree. -/
theorem aug_label_tree (s : Session) (p : String) : (aug_label s p).2.2.tree = s.tree := by
  unfold aug_label
  split
  · rfl
  · split <;> rfl

/-- The spec-modelled `aug_match` never changes the tree. -/
theorem aug_match_tree (s : Session) (p : String) : (aug_match s p).2.2.tree = s.tree := by
  unfold aug_match
  split <;> rfl

/-- `Get` never changes the tree. -/
theorem Get_tree (s : Session) (p : String) : (Get s p).2.tree = s.tree :=
  aug_get_tree s p

/-- `Label` never changes the tree. -/
theorem Label_tree (s : Session) (p : String) : (Label s p).2.tree = s.tree :=
  aug_label_tree s p

/-- `Match` never changes the tree. -/
theorem Match_tree (s : Session) (p : String) : (Match s p).2.tree = s.tree := by
  have h := aug_match_tree s p
  unfold Match
  rcases hm : aug_match s p with ⟨num, ms, s2⟩
  rw [hm] at h
  by_cases hn : num < 0
  · simp [hn]
    exact h
  · simp [hn]
    exact h

/-- The `GetAll` loop never changes the tree. -/
theorem getAllLoop_tree (paths : List String) :
    ∀ s acc, (getAllLoop s paths acc).2.tree = s.tree := by
  induction paths with
  | nil => intro s _; rfl
  | cons p rest ih =>
    intro s acc
    simp only [getAllLoop]
    rcases hg : Get s p with ⟨o, s2⟩
    have h2 : s2.tree = s.tree := by
      have h3 := Get_tree s p
      rw [hg] at h3
      exact h3
    cases o with
    | ret v e =>
      cases e with
      | none =>
        show (getAllLoop s2 rest (acc ++ [v])).2.tree = s.tree
        rw [ih s2 (acc ++ [v])]
        exact h2
      | some e => exact h2
    | panicked m => exact h2

/-- `GetAll` never changes the tree. -/
theorem GetAll_tree (s : Session) (p : String) : (GetAll s p).2.tree = s.tree := by
  unfold GetAll
  rcases hm : Match s p with ⟨⟨paths, err⟩, s2⟩
  have h2 : s2.tree = s.tree := by
    have h3 := Match_tree s p
    rw [hm] at h3
    exact h3
  cases err with
  | some e => exact h2
  | none =>
    show (getAllLoop s2 paths []).2.tree = s.tree
    rw [getAllLoop_tree paths s2 []]
    exact h2

/-- A query operation never changes the tree. -/
theorem applyQuery_tree (s : Session) (op : QueryOp) : (applyQuery s op).tree = s.tree := by
  cases op with
  | getOp p => exact Get_tree s p
  | labelOp p => exact Label_tree s p
  | matchOp p => exact Match_tree s p
  | getAllOp p => exact GetAll_tree s p

/-- A sequence of query operations never changes the tree. -/
theorem applyQueries_tree (ops : List QueryOp) : ∀ s, (applyQueries ops s).tree = s.tree := by
  induction ops with
  | nil => intro s; rfl
  | cons op rest ih =>
    intro s
    show (applyQueries rest (applyQuery s op)).tree = s.tree
    rw [ih, applyQuery_tree]

/-- On a well-formed path, the match list returned by `Match` is the rendered
result of `matchForest` on the session's tree. -/
theorem Match_matches_eval (s : Session) (p : String) (segs : List Segment)
    (hp : parsePath p = some segs) :
    (Match s p).1.1 = (matchForest segs s.tree).map (fun q => renderPath q.1) := by
  unfold Match aug_match
  rw [hp]
  have hn : ¬(((matchForest segs s.tree).length : Int) < 0) := by omega
  simp [hn]

/-- On a malformed path, `Match` returns an empty match list. -/
theorem Match_matches_none (s : Session) (p : String) (hp : parsePath p = none) :
    (Match s p).1.1 = [] := by
  unfold Match aug_match
  rw [hp]
  simp

/-- The match list returned by `Match` is a function of the tree alone. -/
theorem Match_matches_tree_eq (s t : Session) (p : String) (h : s.tree = t.tree) :
    (Match s p).1.1 = (Match t p).1.1 := by
  cases hp : parsePath p with
  | none => rw [Match_matches_none s p hp, Match_matches_none t p hp]
  | some segs => rw [Match_matches_eval s p segs hp, Match_matches_eval t p segs hp, h]

/-- C8: two calls to `Match` with the same path expression and no intervening
mutation — any interleaving of query operations — return the same list of
concrete paths in the same order. -/
theorem Match_deterministic (s : Session) (p : String) (ops : List QueryOp) :
    (Match (applyQueries ops s) p).1.1 = (Match s p).1.1 :=
  Match_matches_tree_eq (applyQueries ops s) s p (applyQueries_tree ops s)

/-!  C9 — `Load` succeeds despite per-file failures. -/

/-- C9: an overall-successful `Load` returns a nil error even when individual
files fail to parse — each such failure is recorded as an error node under the
reserved `/augeas` namespace of the resulting tree — and `Load` returns a
structured error exactly when the native load as a whole reports failure. -/
theorem Load_spec (files : List LoadFile) (s : Session) :
    (Load files true s).1 = none ∧
    (∀ f ∈ files, f.parses = false →
      Tree.node f.path none [errorEntry] ∈ underLabel "augeas" (Load files true s).2.tree) ∧
    (Load files false s).1 = some ⟨ENOMEM, "Out of memory", "", ""⟩ := by
  refine ⟨rfl, ?_, rfl⟩
  intro f hf hp
  show Tree.node f.path none [errorEntry] ∈ underLabel "augeas" (loadedTree files)
  simp [underLabel, loadedTree, Tree.label, Tree.children]
  exact ⟨f, hf, rfl, hp⟩

/-- Witness for C9: two concrete files, the second failing to parse; the load
returns nil and records the error node. -/
theorem Load_spec_witness :
    (Load demoFiles true demoSession).1 = none ∧
    Tree.node "/etc/fstab" none [errorEntry] ∈
      underLabel "augeas" (Load demoFiles true demoSession).2.tree := by
  refine ⟨(Load_spec demoFiles demoSession).1, ?_⟩
  exact (Load_spec demoFiles demoSession).2.1 ⟨"/etc/fstab", false, []⟩
    (List.mem_cons_of_mem _ (List.mem_cons_self _ _)) rfl

end augeas

namespace augeas

/-!  C3 — `Remove` counts removed nodes and reports no error. -/

/-- Annotation leaves the underlying forest unchanged. -/
theorem annotate_map_fst (cs : List Tree) : ∀ acc, (annotate acc cs).map Prod.fst = cs := by
  induction cs with
  | nil => intro acc; rfl
  | cons t ts ih => intro acc; simp [annotate, ih]

/-- `size` of a node is one more than the size of its children. -/
theorem size_eq (t : Tree) : size t = 1 + sizeForest t.children := by
  cases t; rfl

/-- `size` of an explicit node. -/
theorem size_node (l : String) (v : Option String) (cs : List Tree) :
    size (Tree.node l v cs) = 1 + sizeForest cs := rfl

/-- `sizeForest` of a cons. -/
theorem sizeForest_cons (t : Tree) (ts : List Tree) :
    sizeForest (t :: ts) = size t + sizeForest ts := by
  cases t
  simp [sizeForest, size]

/-- `sumSizes` of a cons. -/
theorem sumSizes_cons (a : List (String × Nat)) (t : Tree)
    (l : List (List (String × Nat) × Tree)) :
    sumSizes ((a, t) :: l) = size t + sumSizes l := by
  simp [sumSizes]

/-- `sumSizes` is additive on append. -/
theorem sumSizes_append (l1 l2 : List (List (String × Nat) × Tree)) :
    sumSizes (l1 ++ l2) = sumSizes l1 + sumSizes l2 := by
  simp [sumSizes]

/-- Prefixing the concrete addresses does not change the matched subtrees. -/
theorem sumSizes_map_prefix (x : String × Nat) (l : List (List (String × Nat) × Tree)) :
    sumSizes (l.map (fun q => (x :: q.1, q.2))) = sumSizes l := by
  simp [sumSizes, List.map_map]
  rfl

/-- Last-segment level: the count accumulated by the removal fold equals the
total size of the subtrees collected by the matching fold. -/
theorem remove_count_last (seg : Segment) (cs : List Tree) (l : List (Tree × Nat)) :
    (l.foldr (fun p acc =>
        if selects cs seg p.1 p.2 then (acc.1, size p.1 + acc.2)
        else (p.1 :: acc.1, acc.2)) ([], 0)).2 =
    sumSizes (l.foldr (fun p acc =>
        if selects cs seg p.1 p.2 then ([(p.1.label, p.2)], p.1) :: acc else acc) []) := by
  induction l with
  | nil => simp [sumSizes]
  | cons p l ih =>
    simp only [List.foldr_cons]
    by_cases h : selects cs seg p.1 p.2 = true
    · simp [h, sumSizes_cons, ih]
    · simp [h, ih]

/-- Deeper-segment level: with the inductive hypothesis for the remaining
segments, the removal fold's count equals the total size of the subtrees
collected by the matching fold. -/
theorem remove_count_step (seg r1 : Segment) (rs : List Segment) (cs : List Tree)
    (IH : ∀ cs2, (removeChildren (r1 :: rs) cs2).2 = sumSizes (matchForest (r1 :: rs) cs2))
    (l : List (Tree × Nat)) :
    (l.foldr (fun p acc =>
        if selects cs seg p.1 p.2 then
          (Tree.node p.1.label p.1.value (removeChildren (r1 :: rs) p.1.children).1 :: acc.1,
           (removeChildren (r1 :: rs) p.1.children).2 + acc.2)
        else (p.1 :: acc.1, acc.2)) ([], 0)).2 =
    sumSizes (l.foldr (fun p acc =>
        if selects cs seg p.1 p.2 then
          ((matchForest (r1 :: rs) p.1.children).map
            (fun q => ((p.1.label, p.2) :: q.1, q.2))) ++ acc
        else acc) []) := by
  induction l with
  | nil => simp [sumSizes]
  | cons p l ih =>
    simp only [List.foldr_cons]
    by_cases h : selects cs seg p.1 p.2 = true
    · simp only [h, eq_self_iff_true, if_true]
      rw [sumSizes_append, sumSizes_map_prefix, IH p.1.children, ih]
    · simp only [h, if_false, Bool.false_eq_true]
      exact ih

/-- The number reported by `removeChildren` is the total number of nodes in
the matched subtrees: every node matching the expression together with all its
descendants is counted exactly once. -/
theorem removeChildren_count : ∀ (segs : List Segment) (cs : List Tree),
    (removeChildren segs cs).2 = sumSizes (matchForest segs cs)
  | [], cs => by simp [removeChildren, matchForest, sumSizes]
  | [seg], cs => by
    simp only [removeChildren, matchForest]
    exact remove_count_last seg cs (annotate [] cs)
  | seg :: r1 :: rs, cs => by
    simp only [removeChildren, matchForest]
    exact remove_count_step seg r1 rs cs
      (fun cs2 => removeChildren_count (r1 :: rs) cs2) (annotate [] cs)

/-- Last-segment level of size conservation. -/
theorem remove_size_last (seg : Segment) (cs : List Tree) (l : List (Tree × Nat)) :
    sizeForest (l.foldr (fun p acc =>
        if selects cs seg p.1 p.2 then (acc.1, size p.1 + acc.2)
        else (p.1 :: acc.1, acc.2)) ([], 0)).1 +
    (l.foldr (fun p acc =>
        if selects cs seg p.1 p.2 then (acc.1, size p.1 + acc.2)
        else (p.1 :: acc.1, acc.2)) ([], 0)).2 =
    sizeForest (l.map Prod.fst) := by
  induction l with
  | nil => rfl
  | cons p l ih =>
    simp only [List.foldr_cons, List.map_cons]
    by_cases h : selects cs seg p.1 p.2 = true
    · simp only [h, eq_self_iff_true, if_true]
      rw [sizeForest_cons]
      omega
    · simp only [h, if_false, Bool.false_eq_true]
      rw [sizeForest_cons, sizeForest_cons]
      omega

/-- Deeper-segment level of size conservation. -/
theorem remove_size_step (seg r1 : Segment) (rs : List Segment) (cs : List Tree)
    (IH : ∀ cs2, sizeForest (removeChildren (r1 :: rs) cs2).1 +
      (removeChildren (r1 :: rs) cs2).2 = sizeForest cs2)
    (l : List (Tree × Nat)) :
    sizeForest (l.foldr (fun p acc =>
        if selects cs seg p.1 p.2 then
          (Tree.node p.1.label p.1.value (removeChildren (r1 :: rs) p.1.children).1 :: acc.1,
           (removeChildren (r1 :: rs) p.1.children).2 + acc.2)
        else (p.1 :: acc.1, acc.2)) ([], 0)).1 +
    (l.foldr (fun p acc =>
        if selects cs seg p.1 p.2 then
          (Tree.node p.1.label p.1.value (removeChildren (r1 :: rs) p.1.children).1 :: acc.1,
           (removeChildren (r1 :: rs) p.1.children).2 + acc.2)
        else (p.1 :: acc.1, acc.2)) ([], 0)).2 =
    sizeForest (l.map Prod.fst) := by
  induction l with
  | nil => rfl
  | cons p l ih =>
    simp only [List.foldr_cons, List.map_cons]
    by_cases h : selects cs seg p.1 p.2 = true
    · simp only [h, eq_self_iff_true, if_true]
      rw [sizeForest_cons, sizeForest_cons, size_node]
      have hc := IH p.1.children
      have hp1 : size p.1 = 1 + sizeForest p.1.children := size_eq p.1
      omega
    · simp only [h, if_false, Bool.false_eq_true]
      rw [sizeForest_cons, sizeForest_cons]
      omega

/-- Removal conserves size: the nodes kept plus the count removed add up to
the original forest. -/
theorem removeChildren_size : ∀ (segs : List Segment) (cs : List Tree),
    sizeForest (removeChildren segs cs).1 + (removeChildren segs cs).2 = sizeForest cs
  | [], cs => by simp [removeChildren]
  | [seg], cs => by
    have h := remove_size_last seg cs (annotate [] cs)
    rw [annotate_map_fst] at h
    simp only [removeChildren]
    exact h
  | seg :: r1 :: rs, cs => by
    have h := remove_size_step seg r1 rs cs
      (fun cs2 => removeChildren_size (r1 :: rs) cs2) (annotate [] cs)
    rw [annotate_map_fst] at h
    simp only [removeChildren]
    exact h

/-- C3: on a well-formed path, `Remove` returns the total number of nodes
removed — every node matching the path together with all its descendants;
when nothing matches it returns 0 and the resulting last-error state is clear;
and the signature of `Remove` carries no error value for any input. -/
theorem Remove_spec (s : Session) (p : String) (segs : List Segment)
    (h : parsePath p = some segs) :
    (Remove s p).1 = Int.ofNat (sumSizes (matchForest segs s.tree)) ∧
    sizeForest ((Remove s p).2.tree) + sumSizes (matchForest segs s.tree) = sizeForest s.tree ∧
    (matchForest segs s.tree = [] → (Remove s p).1 = 0) ∧
    (Remove s p).2.err = noErrState := by
  have hR : Remove s p =
      (Int.ofNat (removeChildren segs s.tree).2,
       ⟨(removeChildren segs s.tree).1, s.vars, noErrState⟩) := by
    unfold Remove aug_rm
    rw [h]
  refine ⟨?_, ?_, ?_, ?_⟩
  · rw [hR]
    simp [removeChildren_count]
  · rw [hR]
    have h1 := removeChildren_size segs s.tree
    have h2 := removeChildren_count segs s.tree
    show sizeForest (removeChildren segs s.tree).1 + sumSizes (matchForest segs s.tree) =
      sizeForest s.tree
    omega
  · intro hm
    rw [hR]
    simp [removeChildren_count, hm, sumSizes]
  · rw [hR]

/-- Witness for C3: removing `/a` from `demoSession` removes the two `a`
nodes (2 nodes in total), with a clear error state. -/
theorem Remove_spec_witness :
    parsePath "/a" = some [Segment.label "a" Selector.all] ∧
    (Remove demoSession "/a").1 = 2 ∧
    (Remove demoSession "/a").2.err = noErrState := by
  refine ⟨by decide, ?_,
    (Remove_spec demoSession "/a" [Segment.label "a" Selector.all] (by decide)).2.2.2⟩
  have h := (Remove_spec demoSession "/a" [Segment.label "a" Selector.all] (by decide)).1
  rw [h]
  simp [demoSession, matchForest, annotate, countOf, selects, countLabel, sumSizes, size,
    sizeForest, Tree.label]

end augeas
